import Mathlib

/-!
Verification of `scripts/validate-broker-toml.py`.

A shallow embedding of the broker-definition TOML validator.  Parsed TOML
documents are modelled by `TomlValue` (floats and datetime values, which no
rule of the validator consults, are omitted from the model).  Python
operations that can raise (`x in y`, `d[k]`, `.startswith`, set membership
of an unhashable value, iteration over a non-iterable) are modelled in the
`Except PyErr` monad; a `.error` result corresponds to the Python function
raising instead of returning.  Strings are modelled at the character-list
level; character class functions (`isalnum`, `lower`) are modelled on the
ASCII range, which the validator and all rule tables live in.
-/

/-- A parsed TOML value (floats and datetimes omitted; no validator rule
touches them). -/
inductive TomlValue where
  | str (s : String)
  | int (n : Int)
  | bool (b : Bool)
  | arr (xs : List TomlValue)
  | table (kvs : List (String × TomlValue))

/-- A parsed TOML document: a top-level table. -/
abbrev Record := List (String × TomlValue)

/-- The kinds of Python exception the validator can raise. -/
inductive PyErr where
  | typeError
  | keyError
  | attributeError
deriving DecidableEq

/-- Key lookup in a table (Python dict access; TOML never produces
duplicate keys, lookup takes the first binding). -/
def rlookup (k : String) : List (String × TomlValue) → Option TomlValue
  | [] => none
  | (k', v) :: rest => if k' = k then some v else rlookup k rest

/-- Python truthiness of a value (`not x` is true exactly on these). -/
def pyFalsy : TomlValue → Bool
  | .str s => s.data.isEmpty
  | .int n => n == 0
  | .bool b => !b
  | .arr xs => xs.isEmpty
  | .table kvs => kvs.isEmpty

/-- Is `needle` a contiguous substring of `hay` (Python `sub in s`)? -/
def isSubstringOf (needle : List Char) : List Char → Bool
  | [] => needle.isEmpty
  | c :: rest => needle.isPrefixOf (c :: rest) || isSubstringOf needle rest

/-- Python `k in v` for a string `k`: key membership for a dict, substring
test for a string, element equality for a list; `TypeError` otherwise. -/
def pyStrMem (k : String) : TomlValue → Except PyErr Bool
  | .table kvs => .ok (rlookup k kvs).isSome
  | .str s => .ok (isSubstringOf k.data s.data)
  | .arr xs => .ok (xs.any fun x => match x with | .str s => s == k | _ => false)
  | _ => .error .typeError

/-- Python `v[k]` for a string key `k`: dict indexing; `TypeError` on any
non-dict (string and list indices must be integers). -/
def pyIndex : TomlValue → String → Except PyErr TomlValue
  | .table kvs, k =>
      match rlookup k kvs with
      | some v => .ok v
      | none => .error .keyError
  | _, _ => .error .typeError

/-- Python `v in values` for a set of strings: membership for hashable
values (only a string can actually be a member); `TypeError` (unhashable)
for a list or dict. -/
def pySetMem (v : TomlValue) (values : List String) : Except PyErr Bool :=
  match v with
  | .str s => .ok (values.contains s)
  | .int _ => .ok false
  | .bool _ => .ok false
  | .arr _ => .error .typeError
  | .table _ => .error .typeError

/-- Python `s.startswith(p)`, modelled on character lists. -/
def strStartsWith (s p : String) : Bool :=
  p.data.isPrefixOf s.data

/-- Python `v.startswith(prefixes)` where `v` must be a string
(`AttributeError` otherwise). -/
def pyStartsWithAny (v : TomlValue) (ps : List String) : Except PyErr Bool :=
  match v with
  | .str s => .ok (ps.any fun p => strStartsWith s p)
  | _ => .error .attributeError

/-- Python iteration `for x in v`: a list yields its elements, a string its
one-character substrings, a dict its keys; `TypeError` otherwise. -/
def pyIter : TomlValue → Except PyErr (List TomlValue)
  | .arr xs => .ok xs
  | .str s => .ok (s.data.map fun c => .str ⟨[c]⟩)
  | .table kvs => .ok (kvs.map fun kv => .str kv.1)
  | _ => .error .typeError

/-- Python `broker_id.replace("-", "").replace("_", "")`: replacing a
one-character pattern with the empty string removes every occurrence of
that character. -/
def stripHyphenUnderscore (s : String) : String :=
  ⟨s.data.filter fun c => !(c == '-' || c == '_')⟩

/-- Python `s.isalnum()` (ASCII model): non-empty and every character
alphanumeric. -/
def pyIsAlnum (s : String) : Bool :=
  !s.data.isEmpty && s.data.all Char.isAlphanum

/-- Python `s.lower()` (ASCII model). -/
def pyLower (s : String) : String :=
  ⟨s.data.map Char.toLower⟩

mutual

/-- Python `str(v)` as interpolated into the diagnostic messages: a string
is rendered verbatim, other values by their `repr` (escaping of special
characters inside nested strings is not modelled; no rule table value needs
it). -/
def pyStr : TomlValue → String
  | .str s => s
  | v => pyRepr v

/-- Python `repr(v)` for the value shapes of the model. -/
def pyRepr : TomlValue → String
  | .str s => "'" ++ s ++ "'"
  | .int n => toString n
  | .bool b => if b then "True" else "False"
  | .arr xs => "[" ++ String.intercalate ", " (pyReprList xs) ++ "]"
  | .table kvs => "\x7b" ++ String.intercalate ", " (pyReprTable kvs) ++ "\x7d"

/-- Elementwise `repr` of a list. -/
def pyReprList : List TomlValue → List String
  | [] => []
  | x :: xs => pyRepr x :: pyReprList xs

/-- Elementwise `repr` of the key/value pairs of a dict. -/
def pyReprTable : List (String × TomlValue) → List String
  | [] => []
  | (k, v) :: kvs => ("'" ++ k ++ "': " ++ pyRepr v) :: pyReprTable kvs

end

/-! ## Rule registry (the static tables of the script) -/

/-- Table `REQUIRED_FIELDS`, in the dict's insertion order. -/
def REQUIRED_FIELDS : List (String × List String) :=
  [("broker", ["id", "name", "domain", "category"]), ("removal", ["method"])]

/-- Table `VALID_CATEGORIES`, in the set literal's order. -/
def VALID_CATEGORIES : List String :=
  ["people-search", "background-check", "data-aggregator", "marketing",
   "social-media", "government-records", "financial", "other"]

/-- Table `VALID_REMOVAL_METHODS`. -/
def VALID_REMOVAL_METHODS : List String :=
  ["web-form", "email", "mail", "phone", "api", "account-required"]

/-- Table `VALID_JURISDICTIONS`. -/
def VALID_JURISDICTIONS : List String :=
  ["ccpa", "gdpr", "vcdpa", "cpa", "ctdpa", "ucpa", "global"]

/-- Lexicographic (code point) comparison of character lists, the order
Python compares strings by. -/
def charListLe : List Char → List Char → Bool
  | [], _ => true
  | _ :: _, [] => false
  | a :: as, b :: bs => decide (a < b) || (a == b && charListLe as bs)

/-- Python string comparison `a <= b` (lexicographic by code point). -/
def strLe (a b : String) : Bool := charListLe a.data b.data

/-- Python `', '.join(sorted(values))`: the values sorted ascending (string
order is lexicographic by code point, as in Python) and comma-joined. -/
def sortedJoin (values : List String) : String :=
  String.intercalate ", " (List.insertionSort (fun a b => strLe a b = true) values)

/-! ## Diagnostic messages -/

/-- Message `f"Invalid category '{v}'. Must be one of: ..."`. -/
def categoryMsg (v : TomlValue) : String :=
  "Invalid category '" ++ pyStr v ++ "'. Must be one of: " ++
    sortedJoin VALID_CATEGORIES

/-- Message `f"Invalid domain '{v}'. Should be just the domain (e.g., 'spokeo.com')"`. -/
def domainMsg (v : TomlValue) : String :=
  "Invalid domain '" ++ pyStr v ++ "'. Should be just the domain (e.g., 'spokeo.com')"

/-- Message `f"Invalid broker ID '{s}'. Use lowercase alphanumeric with hyphens."`. -/
def idAlnumMsg (s : String) : String :=
  "Invalid broker ID '" ++ s ++ "'. Use lowercase alphanumeric with hyphens."

/-- Message `f"Broker ID '{s}' must be lowercase."`. -/
def idLowerMsg (s : String) : String :=
  "Broker ID '" ++ s ++ "' must be lowercase."

/-- Message `"removal.method must be a string or array of strings"`. -/
def methodShapeMsg : String :=
  "removal.method must be a string or array of strings"

/-- Message `f"Invalid removal method '{m}'. Must be one of: ..."`. -/
def methodMsg (m : TomlValue) : String :=
  "Invalid removal method '" ++ pyStr m ++ "'. Must be one of: " ++
    sortedJoin VALID_REMOVAL_METHODS

/-- Message `f"removal.url must be a full URL, got '{url}'"`. -/
def urlMsg (v : TomlValue) : String :=
  "removal.url must be a full URL, got '" ++ pyStr v ++ "'"

/-- Message `f"Invalid jurisdiction '{law}'. Must be one of: ..."`. -/
def jurisdictionMsg (v : TomlValue) : String :=
  "Invalid jurisdiction '" ++ pyStr v ++ "'. Must be one of: " ++
    sortedJoin VALID_JURISDICTIONS

/-- Message `f"Missing required section: [{section}]"`. -/
def missingSectionMsg (sectionName : String) : String :=
  "Missing required section: [" ++ sectionName ++ "]"

/-- Message `f"Missing required field: {section}.{field}"`. -/
def missingFieldMsg (sectionName field : String) : String :=
  "Missing required field: " ++ sectionName ++ "." ++ field

/-! ## `_validate_required_fields` -/

/-- The inner loop of `_validate_required_fields`: one diagnostic per
required field absent from the section value (`field not in data[section]`
is Python membership, so it can raise on an ill-typed section value). -/
def missingFieldErrors (sectionName : String) (v : TomlValue) :
    List String → Except PyErr (List String)
  | [] => .ok []
  | f :: rest => do
      let present ← pyStrMem f v
      let tail ← missingFieldErrors sectionName v rest
      .ok ((if present then [] else [missingFieldMsg sectionName f]) ++ tail)

/-- One iteration of the outer loop of `_validate_required_fields`. -/
def requiredSectionErrors (data : Record) (sectionName : String)
    (fields : List String) : Except PyErr (List String) :=
  match rlookup sectionName data with
  | none => .ok [missingSectionMsg sectionName]
  | some v => missingFieldErrors sectionName v fields

/-- Function `_validate_required_fields(data)`: the loop over
`REQUIRED_FIELDS` unrolled in the dict's iteration order (`broker` with its
four fields, then `removal` with `method`). -/
def validate_required_fields (data : Record) : Except PyErr (List String) := do
  let b ← requiredSectionErrors data "broker" ["id", "name", "domain", "category"]
  let r ← requiredSectionErrors data "removal" ["method"]
  .ok (b ++ r)

/-! ## `_validate_broker_section` -/

/-- The category block: `if "category" in broker and broker["category"]
not in VALID_CATEGORIES`. -/
def categoryErrors (broker : TomlValue) : Except PyErr (List String) := do
  let present ← pyStrMem "category" broker
  if present then do
    let v ← pyIndex broker "category"
    let mem ← pySetMem v VALID_CATEGORIES
    .ok (if mem then [] else [categoryMsg v])
  else
    .ok []

/-- The domain block: `if not domain or " " in domain or
domain.startswith("http")`, evaluated left to right with short-circuiting
(so an ill-typed falsy value is reported rather than raising). -/
def domainErrors (broker : TomlValue) : Except PyErr (List String) := do
  let present ← pyStrMem "domain" broker
  if present then do
    let d ← pyIndex broker "domain"
    if pyFalsy d then
      .ok [domainMsg d]
    else do
      let sp ← pyStrMem " " d
      if sp then
        .ok [domainMsg d]
      else do
        let st ← pyStartsWithAny d ["http"]
        .ok (if st then [domainMsg d] else [])
  else
    .ok []

/-- The ID block: two independent checks, both run, their diagnostics
appended in order.  `.replace` on a non-string raises `AttributeError`. -/
def idErrors (broker : TomlValue) : Except PyErr (List String) := do
  let present ← pyStrMem "id" broker
  if present then do
    let v ← pyIndex broker "id"
    match v with
    | .str s =>
        .ok ((if pyIsAlnum (stripHyphenUnderscore s) then [] else [idAlnumMsg s]) ++
             (if s = pyLower s then [] else [idLowerMsg s]))
    | _ => .error .attributeError
  else
    .ok []

/-- Function `_validate_broker_section(broker)`: the three blocks in
source order. -/
def validate_broker_section (broker : TomlValue) : Except PyErr (List String) := do
  let c ← categoryErrors broker
  let d ← domainErrors broker
  let i ← idErrors broker
  .ok (c ++ d ++ i)

/-! ## `_validate_removal_section` -/

/-- Normalization `[method] if isinstance(method, str) else method if
isinstance(method, list) else []`. -/
def methodsOf : TomlValue → List TomlValue
  | .str s => [.str s]
  | .arr xs => xs
  | _ => []

/-- The enum loop over the normalized methods: one diagnostic per value
not in `VALID_REMOVAL_METHODS`, in list order. -/
def methodEnumErrors : List TomlValue → Except PyErr (List String)
  | [] => .ok []
  | m :: rest => do
      let mem ← pySetMem m VALID_REMOVAL_METHODS
      let tail ← methodEnumErrors rest
      .ok ((if mem then [] else [methodMsg m]) ++ tail)

/-- The method block of `_validate_removal_section`.  The source guard is
`if not methods and "method" in removal`; inside this branch the second
conjunct is always true, so only emptiness of `methods` decides the shape
diagnostic. -/
def methodErrors (removal : TomlValue) : Except PyErr (List String) := do
  let present ← pyStrMem "method" removal
  if present then do
    let method ← pyIndex removal "method"
    let methods := methodsOf method
    let shape := if methods.isEmpty then [methodShapeMsg] else []
    let enums ← methodEnumErrors methods
    .ok (shape ++ enums)
  else
    .ok []

/-- The url block: `if not url.startswith(("http://", "https://"))`. -/
def urlErrors (removal : TomlValue) : Except PyErr (List String) := do
  let present ← pyStrMem "url" removal
  if present then do
    let url ← pyIndex removal "url"
    let st ← pyStartsWithAny url ["http://", "https://"]
    .ok (if st then [] else [urlMsg url])
  else
    .ok []

/-- Function `_validate_removal_section(removal)`. -/
def validate_removal_section (removal : TomlValue) : Except PyErr (List String) := do
  let m ← methodErrors removal
  let u ← urlErrors removal
  .ok (m ++ u)

/-! ## `_validate_jurisdictions` -/

/-- One iteration of the `_validate_jurisdictions` loop: `if
isinstance(jurisdiction, dict) and "law" in jurisdiction`, then the enum
check on `jurisdiction["law"]`. -/
def jurisdictionElementErrors : TomlValue → Except PyErr (List String)
  | .table kvs =>
      match rlookup "law" kvs with
      | some law => do
          let mem ← pySetMem law VALID_JURISDICTIONS
          .ok (if mem then [] else [jurisdictionMsg law])
      | none => .ok []
  | _ => .ok []

/-- The loop of `_validate_jurisdictions` over the already-produced
element list. -/
def jurisdictionErrors : List TomlValue → Except PyErr (List String)
  | [] => .ok []
  | j :: rest => do
      let head ← jurisdictionElementErrors j
      let tail ← jurisdictionErrors rest
      .ok (head ++ tail)

/-- Function `_validate_jurisdictions(jurisdictions)`: the loop `for
jurisdiction in jurisdictions` first demands an iterable. -/
def validate_jurisdictions (v : TomlValue) : Except PyErr (List String) := do
  let xs ← pyIter v
  jurisdictionErrors xs

/-! ## `validate_broker_toml` (the orchestrator) -/

/-- The result of `_load_toml`: either a syntax error message or a parsed
record, rendered as the `(data, errors)` pair the source returns. -/
inductive FileData where
  | parseError (msg : String)
  | parsed (r : Record)

/-- Function `_load_toml`, given the file's parse outcome. -/
def loadToml : FileData → Option Record × List String
  | .parseError m => (none, ["Invalid TOML syntax: " ++ m])
  | .parsed r => (some r, [])

/-- One conditional section pass of the orchestrator: `if key in data:
errors.extend(f(data[key]))` contributes `f` applied to the section value
when the section is present and nothing otherwise. -/
def sectionArm (data : Record) (key : String)
    (f : TomlValue → Except PyErr (List String)) : Except PyErr (List String) :=
  match rlookup key data with
  | some v => f v
  | none => .ok []

/-- Function `validate_broker_toml`: note that the guard `if not data` is Python
truthiness, so it returns early both when parsing failed (`data is None`)
and when the file parsed to the empty mapping (`data == {}`). -/
def validate_broker_toml (loaded : Option Record × List String) :
    Except PyErr (List String) :=
  match loaded with
  | (none, loadErrors) => .ok loadErrors
  | (some data, loadErrors) =>
      if data.isEmpty then .ok loadErrors
      else do
        let e1 ← validate_required_fields data
        let e2 ← sectionArm data "broker" validate_broker_section
        let e3 ← sectionArm data "removal" validate_removal_section
        let e4 ← sectionArm data "jurisdictions" validate_jurisdictions
        .ok (e1 ++ e2 ++ e3 ++ e4)

/-! ## The batch runner (`main`) -/

/-- Table `SKIP_FILES`. -/
def SKIP_FILES : List String := ["schema.toml", "README.md"]

/-- Split a character list at every `/` (the components of a POSIX
path). -/
def splitSlash : List Char → List (List Char)
  | [] => [[]]
  | c :: rest =>
      match splitSlash rest with
      | [] => [[]]
      | g :: gs => if c = '/' then [] :: g :: gs else (c :: g) :: gs

/-- Python `Path(p).name`: the final component of a POSIX path (empty and
`.` components do not contribute to the name). -/
def pathName (p : String) : String :=
  ⟨((splitSlash p.data).filter fun c => !(c.isEmpty || c == ['.'])).getLastD []⟩

/-- Line `f"SKIP: {p} (documentation)"`. -/
def skipLine (p : String) : String := "SKIP: " ++ p ++ " (documentation)"

/-- Line `f"ERROR: File not found: {p}"`. -/
def notFoundLine (p : String) : String := "ERROR: File not found: " ++ p

/-- The usage message printed when no arguments are given. -/
def usageLine : String :=
  "Usage: validate-broker-toml.py <file1.toml> [file2.toml ...]"

/-- The lines printed for one validated file: `OK: p`, or `ERROR: p`
followed by one indented bullet per diagnostic. -/
def fileLines (p : String) (errors : List String) : List String :=
  if errors.isEmpty then ["OK: " ++ p]
  else ("ERROR: " ++ p) :: errors.map fun e => "  - " ++ e

/-- One iteration of the loop in `main`: the lines printed for the file
and the file's contribution to `all_valid` (`true` when it leaves
`all_valid` unchanged). -/
def stepFile (fs : String → Option FileData) (p : String) :
    Except PyErr (List String × Bool) :=
  if pathName p ∈ SKIP_FILES then .ok ([skipLine p], true)
  else
    match fs p with
    | none => .ok ([notFoundLine p], false)
    | some c => do
        let errors ← validate_broker_toml (loadToml c)
        .ok (fileLines p errors, errors.isEmpty)

/-- The loop of `main` over the argument list: concatenated output lines
and the final `all_valid` flag. -/
def runBatch (fs : String → Option FileData) :
    List String → Except PyErr (List String × Bool)
  | [] => .ok ([], true)
  | p :: rest => do
      let hd ← stepFile fs p
      let tl ← runBatch fs rest
      .ok (hd.1 ++ tl.1, hd.2 && tl.2)

/-- Function `main()`, over the argument list `sys.argv[1:]` and a file system
mapping each path to its content when it exists.  Returns the printed
lines and the return value.  (Named `pyMain` because a Lean declaration
called `main` must be an `IO` entry point.) -/
def pyMain (args : List String) (fs : String → Option FileData) :
    Except PyErr (List String × Nat) :=
  match args with
  | [] => .ok ([usageLine], 1)
  | _ => (runBatch fs args).map fun r => (r.1, if r.2 then 0 else 1)

/-- The process exit code of `sys.exit(main())`: the returned value, or 1
when an exception escapes (Python exits with code 1 on an uncaught
exception). -/
def processExit : Except PyErr (List String × Nat) → Nat
  | .ok r => r.2
  | .error _ => 1

/-! ## Evaluation lemmas for the `Except` monad -/

@[simp] theorem pyBind_ok {α β : Type} (a : α) (f : α → Except PyErr β) :
    (Except.ok a >>= f : Except PyErr β) = f a := rfl

@[simp] theorem pyBind_error {α β : Type} (e : PyErr) (f : α → Except PyErr β) :
    (Except.error e >>= f : Except PyErr β) = Except.error e := rfl

/-! ## Character and string bridge lemmas -/

theorem char_isUpper_iff {c : Char} : c.isUpper = true ↔ 65 ≤ c.toNat ∧ c.toNat ≤ 90 := by
  simp [Char.isUpper, UInt32.le_def, BitVec.le_def, Char.toNat, UInt32.toNat]

theorem char_toLower_of_not_upper {c : Char} (h : c.isUpper = false) : c.toLower = c := by
  unfold Char.toLower
  rw [if_neg]
  intro hc
  rw [char_isUpper_iff.mpr ⟨hc.1, hc.2⟩] at h
  exact Bool.true_eq_false.mp h

theorem char_toLower_ne_of_upper {c : Char} (h : c.isUpper = true) : c.toLower ≠ c := by
  obtain ⟨h1, h2⟩ := char_isUpper_iff.mp h
  unfold Char.toLower
  rw [if_pos ⟨h1, h2⟩]
  intro heq
  have hvalid : (c.toNat + 32).isValidChar := Or.inl (by omega)
  have hN : (Char.ofNat (c.toNat + 32)).toNat = c.toNat + 32 := by
    rw [Char.ofNat, dif_pos hvalid]; rfl
  rw [heq] at hN
  omega

theorem char_toLower_eq_self_iff {c : Char} : c.toLower = c ↔ c.isUpper = false := by
  cases h : c.isUpper
  · simp [char_toLower_of_not_upper h]
  · simp [char_toLower_ne_of_upper h]

theorem map_toLower_eq_self_iff :
    ∀ l : List Char, l.map Char.toLower = l ↔ l.any Char.isUpper = false
  | [] => by simp
  | c :: rest => by
    simp only [List.map_cons, List.cons.injEq, List.any_cons, Bool.or_eq_false_iff,
      map_toLower_eq_self_iff rest, char_toLower_eq_self_iff]

theorem pyLower_eq_self_iff {s : String} : s = pyLower s ↔ s.data.any Char.isUpper = false := by
  rw [pyLower]
  constructor
  · intro h
    exact (map_toLower_eq_self_iff s.data).mp (congrArg String.data h).symm
  · intro h
    cases s
    exact congrArg String.mk ((map_toLower_eq_self_iff _).mpr h).symm

theorem isSubstringOf_singleton (c : Char) :
    ∀ l : List Char, isSubstringOf [c] l = l.contains c
  | [] => rfl
  | d :: rest => by
    simp only [isSubstringOf, List.isPrefixOf, Bool.and_true, List.contains_cons,
      isSubstringOf_singleton c rest]

theorem list_contains_iff {α : Type} [BEq α] [LawfulBEq α] {l : List α} {a : α} :
    l.contains a = true ↔ a ∈ l := List.elem_iff

/-! ## Block-level characterizations of the section validators -/

theorem categoryErrors_str (kvs : List (String × TomlValue)) (s : String)
    (h : rlookup "category" kvs = some (.str s)) :
    categoryErrors (.table kvs) =
      .ok (if s ∈ VALID_CATEGORIES then [] else [categoryMsg (.str s)]) := by
  simp only [categoryErrors, pyStrMem, h, Option.isSome_some, if_true, pyBind_ok,
    pyIndex, pySetMem]
  by_cases hs : s ∈ VALID_CATEGORIES <;>
    simp [hs, list_contains_iff]

theorem domainErrors_str (kvs : List (String × TomlValue)) (s : String)
    (h : rlookup "domain" kvs = some (.str s)) :
    domainErrors (.table kvs) =
      .ok (if s = "" ∨ ' ' ∈ s.data ∨ strStartsWith s "http" = true
           then [domainMsg (.str s)] else []) := by
  simp only [domainErrors, pyStrMem, h, Option.isSome_some, if_true, pyBind_ok,
    pyIndex, pyFalsy, pyStartsWithAny, isSubstringOf_singleton, List.any_cons,
    List.any_nil, Bool.or_false]
  by_cases h0 : s.data = []
  · have : s = "" := String.toList_inj.mp h0
    simp [h0, this]
  · have hne : ¬ s = "" := fun hs => h0 (by rw [hs])
    simp only [List.isEmpty_iff, h0, if_false]
    by_cases hsp : ' ' ∈ s.data
    · simp [list_contains_iff, hsp, hne]
    · simp only [list_contains_iff, hsp, if_false, pyBind_ok]
      by_cases hst : strStartsWith s "http" = true <;> simp [hst, hne, hsp]

theorem idErrors_str (kvs : List (String × TomlValue)) (s : String)
    (h : rlookup "id" kvs = some (.str s)) :
    idErrors (.table kvs) =
      .ok ((if pyIsAlnum (stripHyphenUnderscore s) = true then [] else [idAlnumMsg s]) ++
           (if s.data.any Char.isUpper = true then [idLowerMsg s] else [])) := by
  simp only [idErrors, pyStrMem, h, Option.isSome_some, if_true, pyBind_ok, pyIndex]
  by_cases hu : s.data.any Char.isUpper = true
  · have : ¬ s = pyLower s := fun hs => by rw [pyLower_eq_self_iff.mp hs] at hu; cases hu
    simp [this, hu]
  · have : s = pyLower s := pyLower_eq_self_iff.mpr (Bool.eq_false_iff.mpr hu ▸ rfl)
    simp [← this, hu]

theorem methodEnumErrors_strs : ∀ ms : List String,
    methodEnumErrors (ms.map TomlValue.str) =
      .ok ((ms.filter fun m => !VALID_REMOVAL_METHODS.contains m).map
            fun m => methodMsg (.str m))
  | [] => rfl
  | m :: rest => by
    simp only [List.map_cons, methodEnumErrors, pySetMem, pyBind_ok,
      methodEnumErrors_strs rest, List.filter_cons]
    by_cases hm : m ∈ VALID_REMOVAL_METHODS <;> simp [hm]

theorem methodErrors_str (kvs : List (String × TomlValue)) (s : String)
    (h : rlookup "method" kvs = some (.str s)) :
    methodErrors (.table kvs) =
      .ok (if s ∈ VALID_REMOVAL_METHODS then [] else [methodMsg (.str s)]) := by
  simp only [methodErrors, pyStrMem, h, Option.isSome_some, if_true, pyBind_ok,
    pyIndex, methodsOf, methodEnumErrors, pySetMem]
  by_cases hs : s ∈ VALID_REMOVAL_METHODS <;>
    simp [hs, list_contains_iff]

theorem methodErrors_arr (kvs : List (String × TomlValue)) (ms : List String)
    (h : rlookup "method" kvs = some (.arr (ms.map TomlValue.str))) (hne : ms ≠ []) :
    methodErrors (.table kvs) =
      .ok ((ms.filter fun m => !VALID_REMOVAL_METHODS.contains m).map
            fun m => methodMsg (.str m)) := by
  have hemp : (ms.map TomlValue.str).isEmpty = false := by
    cases ms with
    | nil => exact absurd rfl hne
    | cons a l => rfl
  simp [methodErrors, pyStrMem, h, pyIndex, methodsOf, hemp, methodEnumErrors_strs ms]

theorem methodErrors_shape (kvs : List (String × TomlValue)) (v : TomlValue)
    (h : rlookup "method" kvs = some v) (hshape : methodsOf v = []) :
    methodErrors (.table kvs) = .ok [methodShapeMsg] := by
  simp [methodErrors, pyStrMem, h, pyIndex, hshape, methodEnumErrors]

/-! ## Claim C1 -/

/-- C1: for every parsed record and missing required field the diagnostics
contain exactly one missing-field entry named `section.field` (one
missing-section entry when the section is absent) — and the claim says this
holds in particular for the record that parses to the empty mapping.  The
code contradicts the claim there: `if not data` is Python truthiness, so an
empty mapping returns with no diagnostics at all (first conjunct), while
any non-empty record does get the per-field diagnostics (second and third
conjuncts). -/
theorem empty_mapping_record_accepted :
    validate_broker_toml (some [], []) = .ok [] ∧
    validate_broker_toml (some [("note", TomlValue.str "x")], []) =
      .ok [missingSectionMsg "broker", missingSectionMsg "removal"] ∧
    validate_broker_toml (some [("broker", TomlValue.table [])], []) =
      .ok [missingFieldMsg "broker" "id", missingFieldMsg "broker" "name",
           missingFieldMsg "broker" "domain", missingFieldMsg "broker" "category",
           missingSectionMsg "removal"] :=
  ⟨rfl, rfl, rfl⟩

/-! ## Claim C2 -/

/-- C2 counterexample: `validate_broker_toml` is not total on all parsed
records.  On a record whose `broker.domain` is the integer 5 the domain
check evaluates `" " in 5` and raises `TypeError`, so the function raises
instead of returning a diagnostic list. -/
theorem validate_raises_on_int_domain :
    validate_broker_toml (some [("broker", TomlValue.table [("domain", TomlValue.int 5)])], []) =
      .error .typeError := rfl

/-! ## Claim C4 -/

/-- C4 counterexample: the empty list is a list of strings containing zero
entries outside the enumeration, so under the claim it is an accepted shape
and should yield zero diagnostics; the code instead emits the shape
diagnostic (because `if not methods` is also true for the normalized empty
list). -/
theorem empty_method_list_refutes_accepted_shape :
    validate_removal_section (.table [("method", TomlValue.arr [])]) ≠ .ok [] ∧
    validate_removal_section (.table [("method", TomlValue.arr [])]) = .ok [methodShapeMsg] := by
  refine ⟨fun hc => ?_, rfl⟩
  rw [show validate_removal_section (.table [("method", TomlValue.arr [])]) =
        Except.ok [methodShapeMsg] from rfl] at hc
  exact List.cons_ne_nil _ _ (Except.ok.inj hc)

/-- C4 (amended): a single string or a non-empty list is accepted as a
shape for `removal.method` (a string is enum-checked directly, a non-empty
list of strings yields exactly one enumeration diagnostic per entry outside
the enumeration, in list order); any non-string non-list value — and also
the empty list — yields exactly the one shape diagnostic and no enumeration
diagnostics. -/
theorem method_shape_characterization :
    (∀ kvs s, rlookup "method" kvs = some (.str s) →
        methodErrors (.table kvs) =
          .ok (if s ∈ VALID_REMOVAL_METHODS then [] else [methodMsg (.str s)])) ∧
    (∀ kvs ms, rlookup "method" kvs = some (.arr (ms.map TomlValue.str)) → ms ≠ [] →
        methodErrors (.table kvs) =
          .ok ((ms.filter fun m => !VALID_REMOVAL_METHODS.contains m).map
                fun m => methodMsg (.str m))) ∧
    (∀ kvs, rlookup "method" kvs = some (.arr []) →
        methodErrors (.table kvs) = .ok [methodShapeMsg]) ∧
    (∀ kvs n, rlookup "method" kvs = some (.int n) →
        methodErrors (.table kvs) = .ok [methodShapeMsg]) ∧
    (∀ kvs b, rlookup "method" kvs = some (.bool b) →
        methodErrors (.table kvs) = .ok [methodShapeMsg]) ∧
    (∀ kvs kvs', rlookup "method" kvs = some (.table kvs') →
        methodErrors (.table kvs) = .ok [methodShapeMsg]) := by
  refine ⟨methodErrors_str, methodErrors_arr, ?_, ?_, ?_, ?_⟩
  · exact fun kvs h => methodErrors_shape kvs _ h rfl
  · exact fun kvs n h => methodErrors_shape kvs _ h rfl
  · exact fun kvs b h => methodErrors_shape kvs _ h rfl
  · exact fun kvs kvs' h => methodErrors_shape kvs _ h rfl

/-- C4 witness: a three-element method list with two entries outside the
enumeration yields exactly those two diagnostics, in list order. -/
theorem method_shape_characterization_witness :
    rlookup "method" [("method", TomlValue.arr [.str "telepathy", .str "email", .str "fax"])] =
      some (.arr (["telepathy", "email", "fax"].map TomlValue.str)) ∧
    (["telepathy", "email", "fax"] : List String) ≠ [] ∧
    methodErrors (.table [("method", TomlValue.arr [.str "telepathy", .str "email", .str "fax"])]) =
      .ok [methodMsg (.str "telepathy"), methodMsg (.str "fax")] := by
  refine ⟨rfl, by simp, ?_⟩
  rw [method_shape_characterization.2.1
        [("method", TomlValue.arr [.str "telepathy", .str "email", .str "fax"])]
        ["telepathy", "email", "fax"] rfl (by simp)]
  rfl

/-! ## Claim C5 -/

/-- C5: when `broker.category` is present (a string, as categories are) and
outside the category enumeration, exactly one diagnostic is produced for
that field, and none when it is inside; the set joined into the message is
the full allowed set (a permutation of `VALID_CATEGORIES`) in ascending
string order. -/
theorem category_enum_diagnostic (kvs : List (String × TomlValue)) (s : String)
    (h : rlookup "category" kvs = some (.str s)) :
    categoryErrors (.table kvs) =
      .ok (if s ∈ VALID_CATEGORIES then [] else [categoryMsg (.str s)]) ∧
    List.Sorted (fun a b : String => a ≤ b)
      (List.insertionSort (fun a b => strLe a b = true) VALID_CATEGORIES) ∧
    List.Perm (List.insertionSort (fun a b => strLe a b = true) VALID_CATEGORIES)
      VALID_CATEGORIES := by
  refine ⟨categoryErrors_str kvs s h, ?_, List.perm_insertionSort _ _⟩
  show List.Sorted _ (["background-check", "data-aggregator", "financial",
    "government-records", "marketing", "other", "people-search", "social-media"] : List String)
  simp only [String.le_iff_toList_le]
  decide

/-- C5 witness: the category `"blog"` is outside the enumeration and gets
exactly one diagnostic. -/
theorem category_enum_diagnostic_witness :
    rlookup "category" [("category", TomlValue.str "blog")] = some (TomlValue.str "blog") ∧
    categoryErrors (.table [("category", TomlValue.str "blog")]) =
      .ok [categoryMsg (.str "blog")] := by
  refine ⟨rfl, ?_⟩
  rw [(category_enum_diagnostic [("category", TomlValue.str "blog")] "blog" rfl).1]
  rfl

/-! ## Claim C6 -/

/-- C6: when `broker.domain` is present, a diagnostic is produced if and
only if the value is the empty string, contains a space, or starts with
`http`; in particular `"https://spokeo.com"` yields exactly one diagnostic
and `"spokeo.com"` yields none. -/
theorem domain_bare_hostname_diagnostic (kvs : List (String × TomlValue)) (s : String)
    (h : rlookup "domain" kvs = some (.str s)) :
    (domainErrors (.table kvs) =
      .ok (if s = "" ∨ ' ' ∈ s.data ∨ strStartsWith s "http" = true
           then [domainMsg (.str s)] else [])) ∧
    validate_broker_section (.table [("domain", TomlValue.str "https://spokeo.com")]) =
      .ok [domainMsg (.str "https://spokeo.com")] ∧
    validate_broker_section (.table [("domain", TomlValue.str "spokeo.com")]) = .ok [] :=
  ⟨domainErrors_str kvs s h, rfl, rfl⟩

/-- C6 witness: `"https://spokeo.com"` starts with `http` and yields the
single domain diagnostic. -/
theorem domain_bare_hostname_diagnostic_witness :
    rlookup "domain" [("domain", TomlValue.str "https://spokeo.com")] =
      some (TomlValue.str "https://spokeo.com") ∧
    domainErrors (.table [("domain", TomlValue.str "https://spokeo.com")]) =
      .ok [domainMsg (.str "https://spokeo.com")] := by
  refine ⟨rfl, ?_⟩
  rw [(domain_bare_hostname_diagnostic [("domain", TomlValue.str "https://spokeo.com")]
        "https://spokeo.com" rfl).1]
  rfl

/-! ## Claim C7 -/

/-- C7: when `broker.id` is present both format checks run and their
diagnostics are additive: one diagnostic when the hyphen/underscore-stripped
remainder is not (non-empty) alphanumeric, and an independent second one
when the value contains an uppercase character; `"Spokeo-1"` yields exactly
the uppercase diagnostic and `"spokeo!"` exactly the alphanumeric one. -/
theorem id_checks_additive (kvs : List (String × TomlValue)) (s : String)
    (h : rlookup "id" kvs = some (.str s)) :
    (idErrors (.table kvs) =
      .ok ((if pyIsAlnum (stripHyphenUnderscore s) = true then [] else [idAlnumMsg s]) ++
           (if s.data.any Char.isUpper = true then [idLowerMsg s] else []))) ∧
    validate_broker_section (.table [("id", TomlValue.str "Spokeo-1")]) =
      .ok [idLowerMsg "Spokeo-1"] ∧
    validate_broker_section (.table [("id", TomlValue.str "spokeo!")]) =
      .ok [idAlnumMsg "spokeo!"] :=
  ⟨idErrors_str kvs s h, rfl, rfl⟩

/-- C7 witness: `"Bad_ID!"` fails both checks and receives both
diagnostics, in order. -/
theorem id_checks_additive_witness :
    rlookup "id" [("id", TomlValue.str "Bad_ID!")] = some (TomlValue.str "Bad_ID!") ∧
    idErrors (.table [("id", TomlValue.str "Bad_ID!")]) =
      .ok [idAlnumMsg "Bad_ID!", idLowerMsg "Bad_ID!"] := by
  refine ⟨rfl, ?_⟩
  rw [(id_checks_additive [("id", TomlValue.str "Bad_ID!")] "Bad_ID!" rfl).1]
  rfl

/-! ## Claim C10 -/

/-- C10: a removal section whose `method` is the empty list gets exactly
one method diagnostic — the shape message — and no enumeration
diagnostics, even though the empty list is a list of strings; the section's
other output (the url check) is unaffected. -/
theorem empty_method_list_single_diagnostic (kvs : List (String × TomlValue))
    (h : rlookup "method" kvs = some (.arr [])) :
    validate_removal_section (.table kvs) =
      (urlErrors (.table kvs)).map fun u => methodShapeMsg :: u := by
  have hm := methodErrors_shape kvs _ h rfl
  simp only [validate_removal_section, hm, pyBind_ok]
  cases hu : urlErrors (.table kvs) <;> simp [Except.map, hu]

/-- C10 witness: a removal table with the empty method list and no url
yields exactly the shape diagnostic. -/
theorem empty_method_list_single_diagnostic_witness :
    rlookup "method" [("method", TomlValue.arr []), ("note", TomlValue.str "x")] =
      some (TomlValue.arr []) ∧
    validate_removal_section (.table [("method", TomlValue.arr []), ("note", TomlValue.str "x")]) =
      .ok [methodShapeMsg] := by
  refine ⟨rfl, ?_⟩
  rw [empty_method_list_single_diagnostic
        [("method", TomlValue.arr []), ("note", TomlValue.str "x")] rfl]
  rfl

/-! ## Well-typed records (the value shapes the schema intends) -/

/-- Values Python can hash, i.e. test for membership in a string set
without raising: everything except a list or a table. -/
def hashableV : TomlValue → Bool
  | .arr _ => false
  | .table _ => false
  | _ => true

/-- Is the value a string? -/
def isStrV : TomlValue → Bool
  | .str _ => true
  | _ => false

/-- When field `f` is present in `kvs`, its value satisfies `p`. -/
def wtField (kvs : List (String × TomlValue)) (f : String) (p : TomlValue → Bool) : Bool :=
  match rlookup f kvs with
  | none => true
  | some v => p v

/-- A well-typed broker section: a table whose `domain` and `id` are
strings and whose `category` is hashable, when present. -/
def wtBroker : TomlValue → Bool
  | .table kvs =>
      wtField kvs "domain" isStrV && wtField kvs "id" isStrV &&
        wtField kvs "category" hashableV
  | _ => false

/-- A well-typed removal section: a table whose `url` is a string and whose
`method`, when it is a list, contains only hashable entries. -/
def wtRemoval : TomlValue → Bool
  | .table kvs =>
      wtField kvs "url" isStrV &&
        wtField kvs "method" fun v =>
          match v with
          | .arr xs => xs.all hashableV
          | _ => true
  | _ => false

/-- A well-typed jurisdictions section: a list whose table elements have a
hashable `law` value, when present. -/
def wtJurisdictions : TomlValue → Bool
  | .arr js => js.all fun j =>
      match j with
      | .table kvs => wtField kvs "law" hashableV
      | _ => true
  | _ => false

/-- A record whose field values have the shapes the schema intends, so that
no validator check raises. -/
def wellTypedRecord (d : Record) : Bool :=
  (match rlookup "broker" d with
   | none => true
   | some b => wtBroker b) &&
  (match rlookup "removal" d with
   | none => true
   | some r => wtRemoval r) &&
  (match rlookup "jurisdictions" d with
   | none => true
   | some j => wtJurisdictions j)

/-! ## Totality of each block on well-typed input -/

/-- Does the computation return (rather than raise)? -/
def exceptOk {α : Type} : Except PyErr α → Bool
  | .ok _ => true
  | .error _ => false

theorem exceptOk_iff {α : Type} {e : Except PyErr α} :
    exceptOk e = true ↔ ∃ a, e = .ok a := by
  cases e <;> simp [exceptOk]

theorem exceptOk_bind {α β : Type} {x : Except PyErr α} {f : α → Except PyErr β}
    (hx : exceptOk x = true) (hf : ∀ a, x = .ok a → exceptOk (f a) = true) :
    exceptOk (x >>= f) = true := by
  cases x with
  | ok a => exact hf a rfl
  | error e => simp [exceptOk] at hx

theorem pySetMem_isOk (v : TomlValue) (hv : hashableV v = true) (values : List String) :
    exceptOk (pySetMem v values) = true := by
  cases v <;> first | rfl | simp [hashableV] at hv

theorem missingFieldErrors_isOk (sec : String) (kvs : List (String × TomlValue)) :
    ∀ fields, exceptOk (missingFieldErrors sec (.table kvs) fields) = true
  | [] => rfl
  | f :: rest => by
    refine exceptOk_bind rfl fun present _ => ?_
    exact exceptOk_bind (missingFieldErrors_isOk sec kvs rest) fun tail _ => rfl

/-- A well-typed broker or removal value is a table. -/
theorem wtBroker_table {b : TomlValue} (h : wtBroker b = true) :
    ∃ kvs, b = TomlValue.table kvs := by
  cases b <;> first | exact ⟨_, rfl⟩ | simp [wtBroker] at h

theorem wtRemoval_table {r : TomlValue} (h : wtRemoval r = true) :
    ∃ kvs, r = TomlValue.table kvs := by
  cases r <;> first | exact ⟨_, rfl⟩ | simp [wtRemoval] at h

theorem validate_required_fields_isOk (d : Record)
    (hb : ∀ b, rlookup "broker" d = some b → ∃ kvs, b = TomlValue.table kvs)
    (hr : ∀ r, rlookup "removal" d = some r → ∃ kvs, r = TomlValue.table kvs) :
    exceptOk (validate_required_fields d) = true := by
  have h1 : exceptOk (requiredSectionErrors d "broker" ["id", "name", "domain", "category"]) = true := by
    unfold requiredSectionErrors
    cases hlb : rlookup "broker" d with
    | none => rfl
    | some b =>
      obtain ⟨kvs, rfl⟩ := hb b hlb
      exact missingFieldErrors_isOk "broker" kvs _
  have h2 : exceptOk (requiredSectionErrors d "removal" ["method"]) = true := by
    unfold requiredSectionErrors
    cases hlr : rlookup "removal" d with
    | none => rfl
    | some r =>
      obtain ⟨kvs, rfl⟩ := hr r hlr
      exact missingFieldErrors_isOk "removal" kvs _
  exact exceptOk_bind h1 fun l1 _ => exceptOk_bind h2 fun l2 _ => rfl

theorem categoryErrors_isOk (kvs : List (String × TomlValue))
    (h : wtField kvs "category" hashableV = true) :
    exceptOk (categoryErrors (.table kvs)) = true := by
  unfold categoryErrors
  cases hc : rlookup "category" kvs with
  | none => simp [pyStrMem, hc, exceptOk]
  | some v =>
    have hv : hashableV v = true := by
      unfold wtField at h; rw [hc] at h; exact h
    simp only [pyStrMem, hc, Option.isSome_some, if_true, pyBind_ok, pyIndex]
    exact exceptOk_bind (pySetMem_isOk v hv _) fun b _ => rfl

theorem domainErrors_isOk (kvs : List (String × TomlValue))
    (h : wtField kvs "domain" isStrV = true) :
    exceptOk (domainErrors (.table kvs)) = true := by
  cases hc : rlookup "domain" kvs with
  | none => simp [domainErrors, pyStrMem, hc, exceptOk]
  | some v =>
    have hv : isStrV v = true := by
      unfold wtField at h; rw [hc] at h; exact h
    cases v with
    | str s => rw [domainErrors_str kvs s hc]; rfl
    | int n => simp [isStrV] at hv
    | bool b => simp [isStrV] at hv
    | arr xs => simp [isStrV] at hv
    | table t => simp [isStrV] at hv

theorem idErrors_isOk (kvs : List (String × TomlValue))
    (h : wtField kvs "id" isStrV = true) :
    exceptOk (idErrors (.table kvs)) = true := by
  cases hc : rlookup "id" kvs with
  | none => simp [idErrors, pyStrMem, hc, exceptOk]
  | some v =>
    have hv : isStrV v = true := by
      unfold wtField at h; rw [hc] at h; exact h
    cases v with
    | str s => rw [idErrors_str kvs s hc]; rfl
    | int n => simp [isStrV] at hv
    | bool b => simp [isStrV] at hv
    | arr xs => simp [isStrV] at hv
    | table t => simp [isStrV] at hv

theorem validate_broker_section_isOk (b : TomlValue) (h : wtBroker b = true) :
    exceptOk (validate_broker_section b) = true := by
  obtain ⟨kvs, rfl⟩ := wtBroker_table h
  rw [wtBroker, Bool.and_assoc, Bool.and_eq_true, Bool.and_eq_true] at h
  unfold validate_broker_section
  refine exceptOk_bind (categoryErrors_isOk kvs h.2.2) fun l1 _ => ?_
  refine exceptOk_bind (domainErrors_isOk kvs h.1) fun l2 _ => ?_
  exact exceptOk_bind (idErrors_isOk kvs h.2.1) fun l3 _ => rfl

theorem methodEnumErrors_isOk :
    ∀ ms : List TomlValue, ms.all hashableV = true →
      exceptOk (methodEnumErrors ms) = true
  | [], _ => rfl
  | m :: rest, h => by
    rw [List.all_cons, Bool.and_eq_true] at h
    refine exceptOk_bind (pySetMem_isOk m h.1 _) fun b _ => ?_
    exact exceptOk_bind (methodEnumErrors_isOk rest h.2) fun l _ => rfl

theorem methodErrors_isOk (kvs : List (String × TomlValue))
    (h : wtField kvs "method"
          (fun v => match v with | .arr xs => xs.all hashableV | _ => true) = true) :
    exceptOk (methodErrors (.table kvs)) = true := by
  unfold methodErrors
  cases hc : rlookup "method" kvs with
  | none => simp [pyStrMem, hc, exceptOk]
  | some v =>
    unfold wtField at h
    rw [hc] at h
    have he : exceptOk (methodEnumErrors (methodsOf v)) = true := by
      cases v with
      | arr xs => exact methodEnumErrors_isOk xs h
      | str s => exact methodEnumErrors_isOk [.str s] rfl
      | int n => rfl
      | bool b => rfl
      | table t => rfl
    simp only [pyStrMem, hc, Option.isSome_some, if_true, pyBind_ok, pyIndex]
    exact exceptOk_bind he fun l _ => rfl

theorem urlErrors_isOk (kvs : List (String × TomlValue))
    (h : wtField kvs "url" isStrV = true) :
    exceptOk (urlErrors (.table kvs)) = true := by
  cases hc : rlookup "url" kvs with
  | none => simp [urlErrors, pyStrMem, hc, exceptOk]
  | some v =>
    have hv : isStrV v = true := by
      unfold wtField at h; rw [hc] at h; exact h
    cases v with
    | str s =>
      unfold urlErrors
      simp only [pyStrMem, hc, Option.isSome_some, if_true, pyBind_ok, pyIndex,
        pyStartsWithAny]
      rfl
    | int n => simp [isStrV] at hv
    | bool b => simp [isStrV] at hv
    | arr xs => simp [isStrV] at hv
    | table t => simp [isStrV] at hv

theorem validate_removal_section_isOk (r : TomlValue) (h : wtRemoval r = true) :
    exceptOk (validate_removal_section r) = true := by
  obtain ⟨kvs, rfl⟩ := wtRemoval_table h
  rw [wtRemoval, Bool.and_eq_true] at h
  unfold validate_removal_section
  refine exceptOk_bind (methodErrors_isOk kvs h.2) fun l1 _ => ?_
  exact exceptOk_bind (urlErrors_isOk kvs h.1) fun l2 _ => rfl

theorem jurisdictionElementErrors_isOk (j : TomlValue)
    (h : (match j with
      | TomlValue.table kvs => wtField kvs "law" hashableV
      | _ => true) = true) :
    exceptOk (jurisdictionElementErrors j) = true := by
  cases j with
  | table kvs =>
    have h' : wtField kvs "law" hashableV = true := h
    simp only [jurisdictionElementErrors]
    cases hlaw : rlookup "law" kvs with
    | none => rfl
    | some law =>
      unfold wtField at h'
      rw [hlaw] at h'
      exact exceptOk_bind (pySetMem_isOk law h' _) fun b _ => rfl
  | str s => rfl
  | int n => rfl
  | bool b => rfl
  | arr xs => rfl

theorem jurisdictionErrors_isOk :
    ∀ js : List TomlValue,
      (js.all fun j => match j with
        | TomlValue.table kvs => wtField kvs "law" hashableV
        | _ => true) = true →
      exceptOk (jurisdictionErrors js) = true
  | [], _ => rfl
  | j :: rest, h => by
    rw [List.all_cons, Bool.and_eq_true] at h
    unfold jurisdictionErrors
    refine exceptOk_bind (jurisdictionElementErrors_isOk j h.1) fun head _ => ?_
    exact exceptOk_bind (jurisdictionErrors_isOk rest h.2) fun tail _ => rfl

theorem validate_jurisdictions_isOk (j : TomlValue) (h : wtJurisdictions j = true) :
    exceptOk (validate_jurisdictions j) = true := by
  cases j with
  | arr js =>
    unfold validate_jurisdictions
    simp only [pyIter, pyBind_ok]
    exact jurisdictionErrors_isOk js h
  | str s => simp [wtJurisdictions] at h
  | int n => simp [wtJurisdictions] at h
  | bool b => simp [wtJurisdictions] at h
  | table t => simp [wtJurisdictions] at h

/-- A conditional section pass is total when the present section value
satisfies the corresponding typing condition and its validator is total on
such values. -/
theorem sectionArm_isOk (d : Record) (key : String)
    (f : TomlValue → Except PyErr (List String)) (p : TomlValue → Bool)
    (h : (match rlookup key d with
          | none => true
          | some v => p v) = true)
    (hf : ∀ v, p v = true → exceptOk (f v) = true) :
    exceptOk (sectionArm d key f) = true := by
  unfold sectionArm
  cases hk : rlookup key d with
  | none => rfl
  | some v =>
    rw [hk] at h
    exact hf v h

/-- C2 (amended): on every successfully parsed record whose field values
have the shapes the schema intends — `broker` and `removal` are tables;
`id`, `domain` and `url` are strings when present; `category`, `method`
entries and jurisdiction `law` values are not arrays or tables;
`jurisdictions` is an array when present — `validate_broker_toml` returns
a list of diagnostics and never raises: all non-syntax errors are
accumulated.  (As claimed for arbitrary value types it is refuted by
`validate_raises_on_int_domain`.) -/
theorem well_typed_validate_total (d : Record) (es : List String)
    (h : wellTypedRecord d = true) :
    ∃ l, validate_broker_toml (some d, es) = .ok l := by
  rw [← exceptOk_iff]
  rw [wellTypedRecord, Bool.and_eq_true, Bool.and_eq_true] at h
  simp only [validate_broker_toml]
  by_cases hd : d.isEmpty = true
  · simp [hd, exceptOk]
  · simp only [hd, if_false]
    refine exceptOk_bind (validate_required_fields_isOk d ?_ ?_) fun e1 _ => ?_
    · intro b hbk
      have h1 := h.1.1
      rw [hbk] at h1
      exact wtBroker_table h1
    · intro r hrk
      have h2 := h.1.2
      rw [hrk] at h2
      exact wtRemoval_table h2
    refine exceptOk_bind
      (sectionArm_isOk d "broker" _ wtBroker h.1.1 validate_broker_section_isOk)
      fun e2 _ => ?_
    refine exceptOk_bind
      (sectionArm_isOk d "removal" _ wtRemoval h.1.2 validate_removal_section_isOk)
      fun e3 _ => ?_
    exact exceptOk_bind
      (sectionArm_isOk d "jurisdictions" _ wtJurisdictions h.2 validate_jurisdictions_isOk)
      fun e4 _ => rfl

/-- A well-typed, fully valid broker record used by several witnesses. -/
def sampleRecord : Record :=
  [("broker", TomlValue.table [("id", TomlValue.str "spokeo"),
      ("name", TomlValue.str "Spokeo"), ("domain", TomlValue.str "spokeo.com"),
      ("category", TomlValue.str "people-search")]),
   ("removal", TomlValue.table [("method", TomlValue.arr [TomlValue.str "email"]),
      ("url", TomlValue.str "https://spokeo.com/optout")]),
   ("jurisdictions", TomlValue.arr [TomlValue.table [("law", TomlValue.str "ccpa")]])]

/-- C2 witness: a concrete well-typed record on which the amended theorem
applies. -/
theorem well_typed_validate_total_witness :
    wellTypedRecord sampleRecord = true ∧
    ∃ l, validate_broker_toml (some sampleRecord, []) = .ok l :=
  ⟨rfl, well_typed_validate_total sampleRecord [] rfl⟩

/-! ## Clean validation of fully valid records -/

theorem missingFieldErrors_all_present (sec : String) (kvs : List (String × TomlValue)) :
    ∀ fields, (∀ f ∈ fields, (rlookup f kvs).isSome = true) →
      missingFieldErrors sec (.table kvs) fields = .ok []
  | [], _ => rfl
  | f :: rest, h => by
    have hf := h f (List.mem_cons_self f rest)
    have ht := missingFieldErrors_all_present sec kvs rest
      fun x hx => h x (List.mem_cons_of_mem f hx)
    simp [missingFieldErrors, pyStrMem, hf, ht]

theorem filter_valid_methods_nil (ms : List String)
    (h : ∀ m ∈ ms, m ∈ VALID_REMOVAL_METHODS) :
    (ms.filter fun m => !VALID_REMOVAL_METHODS.contains m) = [] := by
  induction ms with
  | nil => rfl
  | cons m rest ih =>
    have hmem : m ∈ VALID_REMOVAL_METHODS := h m (by simp)
    simp [List.filter_cons, hmem]
    exact fun x hx => h x (by simp [hx])

theorem urlErrors_absent (kvs : List (String × TomlValue))
    (h : rlookup "url" kvs = none) : urlErrors (.table kvs) = .ok [] := by
  simp [urlErrors, pyStrMem, h]

theorem urlErrors_valid (kvs : List (String × TomlValue)) (u : String)
    (h : rlookup "url" kvs = some (.str u))
    (hst : strStartsWith u "http://" = true ∨ strStartsWith u "https://" = true) :
    urlErrors (.table kvs) = .ok [] := by
  simp only [urlErrors, pyStrMem, h, Option.isSome_some, if_true, pyBind_ok, pyIndex,
    pyStartsWithAny, List.any_cons, List.any_nil, Bool.or_false]
  rcases hst with h1 | h1 <;> simp [h1]

theorem jurisdictionElementErrors_valid (j : TomlValue)
    (h : ∀ kvs, j = .table kvs → ∀ law, rlookup "law" kvs = some law →
          ∃ ls, law = .str ls ∧ ls ∈ VALID_JURISDICTIONS) :
    jurisdictionElementErrors j = .ok [] := by
  cases j with
  | table kvs =>
    simp only [jurisdictionElementErrors]
    cases hlaw : rlookup "law" kvs with
    | none => rfl
    | some law =>
      obtain ⟨ls, rfl, hmem⟩ := h kvs rfl law hlaw
      simp [pySetMem, hmem]
  | str s => rfl
  | int n => rfl
  | bool b => rfl
  | arr xs => rfl

theorem jurisdictionErrors_valid :
    ∀ js : List TomlValue,
      (∀ j ∈ js, ∀ kvs, j = TomlValue.table kvs → ∀ law, rlookup "law" kvs = some law →
        ∃ ls, law = TomlValue.str ls ∧ ls ∈ VALID_JURISDICTIONS) →
      jurisdictionErrors js = .ok []
  | [], _ => rfl
  | j :: rest, h => by
    have h1 := jurisdictionElementErrors_valid j (h j (by simp))
    have h2 := jurisdictionErrors_valid rest fun x hx => h x (by simp [hx])
    simp [jurisdictionErrors, h1, h2]

/-! ## Claim C3 -/

/-- C3 counterexample: a record satisfying every condition the claim lists
(all required fields present, category in range, every method value in
range, id lowercase alphanumeric, domain a bare hostname, no url) can still
produce a non-empty diagnostic sequence, because the claim says nothing
about the `jurisdictions` section. -/
theorem valid_record_with_bad_jurisdiction_not_clean :
    validate_broker_toml (some
      [("broker", TomlValue.table [("id", TomlValue.str "spokeo"),
          ("name", TomlValue.str "Spokeo"), ("domain", TomlValue.str "spokeo.com"),
          ("category", TomlValue.str "people-search")]),
       ("removal", TomlValue.table [("method", TomlValue.str "email")]),
       ("jurisdictions", TomlValue.arr [TomlValue.table [("law", TomlValue.str "eu-privacy")]])],
      []) = .ok [jurisdictionMsg (TomlValue.str "eu-privacy")] := rfl

/-- C3 (amended): a record with all required fields present, a category in
the enumeration, a bare-hostname domain, an id passing both format checks,
`removal.method` a valid string or a non-empty array of strings all in the
enumeration, `removal.url` absent or a full URL, and — additionally to the
claim — every `jurisdictions` entry that is a table with a `law` key
carrying a law inside the jurisdiction enumeration, validates to the empty
diagnostic sequence. -/
theorem valid_minimal_record_clean
    (d : Record) (bkr rmv : List (String × TomlValue)) (ids ds cs : String)
    (hb : rlookup "broker" d = some (.table bkr))
    (hr : rlookup "removal" d = some (.table rmv))
    (hid : rlookup "id" bkr = some (.str ids))
    (hid1 : pyIsAlnum (stripHyphenUnderscore ids) = true)
    (hid2 : ids.data.any Char.isUpper = false)
    (hname : (rlookup "name" bkr).isSome = true)
    (hdom : rlookup "domain" bkr = some (.str ds))
    (hd1 : ds ≠ "")
    (hd2 : ' ' ∉ ds.data)
    (hd3 : strStartsWith ds "http" = false)
    (hcat : rlookup "category" bkr = some (.str cs))
    (hcs : cs ∈ VALID_CATEGORIES)
    (hm : (∃ ms, rlookup "method" rmv = some (.str ms) ∧ ms ∈ VALID_REMOVAL_METHODS) ∨
          (∃ l, rlookup "method" rmv = some (.arr (l.map TomlValue.str)) ∧ l ≠ [] ∧
            ∀ m ∈ l, m ∈ VALID_REMOVAL_METHODS))
    (hurl : rlookup "url" rmv = none ∨
            ∃ us, rlookup "url" rmv = some (.str us) ∧
              (strStartsWith us "http://" = true ∨ strStartsWith us "https://" = true))
    (hjur : rlookup "jurisdictions" d = none ∨
            ∃ js, rlookup "jurisdictions" d = some (.arr js) ∧
              ∀ j ∈ js, ∀ kvs, j = TomlValue.table kvs →
                ∀ law, rlookup "law" kvs = some law →
                  ∃ ls, law = TomlValue.str ls ∧ ls ∈ VALID_JURISDICTIONS) :
    validate_broker_toml (some d, []) = .ok [] := by
  have hdne : d.isEmpty = false := by
    cases d with
    | nil => simp [rlookup] at hb
    | cons a l => rfl
  have hreq : validate_required_fields d = .ok [] := by
    have h1 : requiredSectionErrors d "broker" ["id", "name", "domain", "category"] = .ok [] := by
      simp only [requiredSectionErrors, hb]
      exact missingFieldErrors_all_present "broker" bkr _ (by
        intro f hf
        fin_cases hf <;> simp [hid, hname, hdom, hcat])
    have h2 : requiredSectionErrors d "removal" ["method"] = .ok [] := by
      simp only [requiredSectionErrors, hr]
      refine missingFieldErrors_all_present "removal" rmv _ (by
        intro f hf
        fin_cases hf
        rcases hm with ⟨ms, hms, _⟩ | ⟨l, hl, _, _⟩
        · simp [hms]
        · simp [hl])
    simp [validate_required_fields, h1, h2]
  have hbrk : validate_broker_section (.table bkr) = .ok [] := by
    have h1 := categoryErrors_str bkr cs hcat
    have h2 := domainErrors_str bkr ds hdom
    have h3 := idErrors_str bkr ids hid
    simp [validate_broker_section, h1, h2, h3, hcs, hd1, hd2, hd3, hid1, hid2]
  have hrem : validate_removal_section (.table rmv) = .ok [] := by
    have hmOK : methodErrors (.table rmv) = .ok [] := by
      rcases hm with ⟨ms, hms, hmem⟩ | ⟨l, hl, hlne, hlmem⟩
      · rw [methodErrors_str rmv ms hms]
        simp [hmem]
      · rw [methodErrors_arr rmv l hl hlne, filter_valid_methods_nil l hlmem]
        rfl
    have huOK : urlErrors (.table rmv) = .ok [] := by
      rcases hurl with hu | ⟨us, hu, hust⟩
      · exact urlErrors_absent rmv hu
      · exact urlErrors_valid rmv us hu hust
    simp [validate_removal_section, hmOK, huOK]
  rcases hjur with hj | ⟨js, hj, hjv⟩
  · simp [validate_broker_toml, hdne, sectionArm, hb, hr, hj, hreq, hbrk, hrem]
  · have hjOK : validate_jurisdictions (.arr js) = .ok [] := by
      simp [validate_jurisdictions, pyIter, jurisdictionErrors_valid js hjv]
    simp [validate_broker_toml, hdne, sectionArm, hb, hr, hj, hreq, hbrk, hrem, hjOK]

/-- C3 witness: a concrete fully valid record (method list, url,
jurisdictions all present) validates cleanly via the amended theorem. -/
theorem valid_minimal_record_clean_witness :
    validate_broker_toml (some
      [("broker", TomlValue.table [("id", TomlValue.str "true-people"),
          ("name", TomlValue.str "TruePeopleSearch"), ("domain", TomlValue.str "truepeoplesearch.com"),
          ("category", TomlValue.str "people-search")]),
       ("removal", TomlValue.table [("method", TomlValue.arr [TomlValue.str "web-form", TomlValue.str "email"]),
          ("url", TomlValue.str "https://truepeoplesearch.com/removal")]),
       ("jurisdictions", TomlValue.arr [TomlValue.table [("law", TomlValue.str "gdpr")]])],
      []) = .ok [] := by
  refine valid_minimal_record_clean _ _ _ "true-people" "truepeoplesearch.com" "people-search"
    rfl rfl rfl (by decide) (by decide) rfl rfl (by decide) (by decide) rfl rfl (by decide)
    (Or.inr ⟨["web-form", "email"], rfl, by simp, by decide⟩)
    (Or.inr ⟨"https://truepeoplesearch.com/removal", rfl, Or.inr rfl⟩)
    (Or.inr ⟨[TomlValue.table [("law", TomlValue.str "gdpr")]], rfl, ?_⟩)
  intro j hj kvs hk law hlaw
  rw [List.mem_singleton] at hj
  subst hj
  cases hk
  have h2 : some (TomlValue.str "gdpr") = some law := hlaw
  injection h2 with h3
  exact ⟨"gdpr", h3.symm, by decide⟩

/-! ## Batch runner reasoning -/

/-- The report lines `main` prints for one path (under the no-crash
assumption used below, the error branch is unreachable). -/
def fileReport (fs : String → Option FileData) (p : String) : List String :=
  if pathName p ∈ SKIP_FILES then [skipLine p]
  else
    match fs p with
    | none => [notFoundLine p]
    | some c =>
        match validate_broker_toml (loadToml c) with
        | .ok errors => fileLines p errors
        | .error _ => []

/-- Does processing the path leave `all_valid` unchanged? -/
def fileOk (fs : String → Option FileData) (p : String) : Bool :=
  if pathName p ∈ SKIP_FILES then true
  else
    match fs p with
    | none => false
    | some c =>
        match validate_broker_toml (loadToml c) with
        | .ok errors => errors.isEmpty
        | .error _ => false

/-- No file of the batch makes the validator raise (see claim C2: records
with ill-typed field values can make it raise; the batch-runner claim
presupposes per-file validation completes). -/
def noCrash (fs : String → Option FileData) (args : List String) : Bool :=
  args.all fun p =>
    match fs p with
    | some c => exceptOk (validate_broker_toml (loadToml c))
    | none => true

theorem stepFile_eq (fs : String → Option FileData) (p : String)
    (hc : ∀ c, fs p = some c → exceptOk (validate_broker_toml (loadToml c)) = true) :
    stepFile fs p = .ok (fileReport fs p, fileOk fs p) := by
  unfold stepFile fileReport fileOk
  by_cases hs : pathName p ∈ SKIP_FILES
  · simp [hs]
  · simp only [hs, if_false]
    cases hf : fs p with
    | none => rfl
    | some c =>
      obtain ⟨errors, he⟩ := exceptOk_iff.mp (hc c hf)
      simp [he]

theorem runBatch_eq (fs : String → Option FileData) :
    ∀ args, noCrash fs args = true →
      runBatch fs args = .ok ((args.map (fileReport fs)).flatten, args.all (fileOk fs))
  | [], _ => rfl
  | p :: rest, h => by
    rw [noCrash, List.all_cons, Bool.and_eq_true] at h
    have h1 : stepFile fs p = .ok (fileReport fs p, fileOk fs p) := by
      refine stepFile_eq fs p fun c hcf => ?_
      have hh := h.1
      rw [hcf] at hh
      exact hh
    have h2 := runBatch_eq fs rest h.2
    simp [runBatch, h1, h2]


theorem fileOk_iff (fs : String → Option FileData) (p : String)
    (hskip : pathName p ∉ SKIP_FILES) :
    fileOk fs p = true ↔
      ∃ c, fs p = some c ∧ validate_broker_toml (loadToml c) = .ok [] := by
  unfold fileOk
  rw [if_neg hskip]
  cases hf : fs p with
  | none => simp
  | some c =>
    cases hv : validate_broker_toml (loadToml c) with
    | ok errors => simp [hv, List.isEmpty_iff]
    | error e => simp [hv]

/-! ## Claim C8 -/

/-- C8 counterexample: when an earlier file's record makes the validator
raise (here `broker.domain` is an integer), the uncaught exception aborts
the whole batch: the run produces no report lines at all, so the later
non-existent path and the later valid file are neither processed nor
reported — refuting "every remaining path argument is still processed and
reported independently" as stated.  (The process still exits 1, via the
uncaught exception.) -/
theorem crashing_record_aborts_batch :
    pyMain ["bad.toml", "missing.toml", "good.toml"]
      (fun p =>
        if p = "bad.toml"
          then some (.parsed [("broker", TomlValue.table [("domain", TomlValue.int 5)])])
        else if p = "good.toml" then some (.parsed sampleRecord)
        else none) = .error .typeError := rfl

/-- C8 (amended): in a non-empty batch none of whose existing files makes
the validator raise, a non-skipped path that does not exist does not abort
the run — every path of the batch is still processed and reported
independently (first conjunct: the printed lines are the concatenation of
per-path reports) — and it forces exit code 1; the exit code is 0 if and
only if every non-skipped path exists and validates with an empty
diagnostic list.  The `noCrash` proviso is forced by the counterexample
`crashing_record_aborts_batch`: a record with ill-typed values makes the
validator raise and the uncaught exception does abort the batch. -/
theorem batch_missing_file_no_abort (args : List String) (fs : String → Option FileData)
    (hne : args ≠ []) (hnc : noCrash fs args = true) :
    pyMain args fs =
      .ok ((args.map (fileReport fs)).flatten, if args.all (fileOk fs) then 0 else 1) ∧
    (processExit (pyMain args fs) = 0 ↔
      ∀ p ∈ args, pathName p ∉ SKIP_FILES →
        ∃ c, fs p = some c ∧ validate_broker_toml (loadToml c) = .ok []) ∧
    (∀ p ∈ args, pathName p ∉ SKIP_FILES → fs p = none →
      processExit (pyMain args fs) = 1) := by
  have hmain : pyMain args fs =
      .ok ((args.map (fileReport fs)).flatten, if args.all (fileOk fs) then 0 else 1) := by
    cases args with
    | nil => exact absurd rfl hne
    | cons a l =>
      show (runBatch fs (a :: l)).map _ = _
      rw [runBatch_eq fs (a :: l) hnc]
      rfl
  have hiff : processExit (pyMain args fs) = 0 ↔
      ∀ p ∈ args, pathName p ∉ SKIP_FILES →
        ∃ c, fs p = some c ∧ validate_broker_toml (loadToml c) = .ok [] := by
    rw [hmain]
    show (if args.all (fileOk fs) = true then 0 else 1) = 0 ↔
      ∀ p ∈ args, pathName p ∉ SKIP_FILES →
        ∃ c, fs p = some c ∧ validate_broker_toml (loadToml c) = .ok []
    by_cases hall : args.all (fileOk fs) = true
    · rw [if_pos hall]
      have hall' := List.all_eq_true.mp hall
      exact ⟨fun _ p hp hskip => (fileOk_iff fs p hskip).mp (hall' p hp), fun _ => rfl⟩
    · rw [if_neg hall]
      refine ⟨fun h01 => absurd h01 (by decide), fun hclean => absurd ?_ hall⟩
      rw [List.all_eq_true]
      intro p hp
      by_cases hskip : pathName p ∈ SKIP_FILES
      · unfold fileOk
        rw [if_pos hskip]
      · exact (fileOk_iff fs p hskip).mpr (hclean p hp hskip)
  refine ⟨hmain, hiff, ?_⟩
  intro p hp hskip hnone
  have hpf : fileOk fs p = false := by
    unfold fileOk
    rw [if_neg hskip, hnone]
  have hall : args.all (fileOk fs) = false := by
    cases hA : args.all (fileOk fs) with
    | false => rfl
    | true =>
      have hT := List.all_eq_true.mp hA p hp
      rw [hpf] at hT
      cases hT
  rw [hmain]
  show (if args.all (fileOk fs) = true then 0 else 1) = 1
  rw [hall]
  rfl

/-- A small file system for the batch witnesses: two existing broker files
around one missing path. -/
def witnessFs : String → Option FileData :=
  fun p =>
    if p = "brokers/spokeo.toml" then some (.parsed sampleRecord)
    else if p = "brokers/acme.toml" then some (.parsed [("note", TomlValue.str "x")])
    else none

/-- C8 witness: a batch of three paths whose middle path does not exist
exits with code 1 while both other files are still reported. -/
theorem batch_missing_file_no_abort_witness :
    (["brokers/spokeo.toml", "brokers/missing.toml", "brokers/acme.toml"] : List String) ≠ [] ∧
    noCrash witnessFs ["brokers/spokeo.toml", "brokers/missing.toml", "brokers/acme.toml"] = true ∧
    processExit (pyMain ["brokers/spokeo.toml", "brokers/missing.toml", "brokers/acme.toml"]
      witnessFs) = 1 :=
  ⟨by simp, rfl,
    (batch_missing_file_no_abort
      ["brokers/spokeo.toml", "brokers/missing.toml", "brokers/acme.toml"] witnessFs
      (by simp) rfl).2.2 "brokers/missing.toml" (by simp) (by decide) rfl⟩

/-! ## Claim C9 -/

/-- C9: a path whose base name is `schema.toml` or `README.md` is always
reported as skipped (its skip line is prepended and the batch result is
otherwise unchanged, second conjunct) and it is never loaded or validated:
the whole run is unchanged under any modification of the file system at
that path — so its content or existence never affects the exit code (first
conjunct). -/
theorem skip_files_ignored (p : String) (h : pathName p ∈ SKIP_FILES) :
    (∀ (fs : String → Option FileData) (v : Option FileData) (args : List String),
      pyMain args (Function.update fs p v) = pyMain args fs) ∧
    (∀ (fs : String → Option FileData) (rest : List String),
      runBatch fs (p :: rest) =
        (runBatch fs rest).map fun lb => (skipLine p :: lb.1, lb.2)) := by
  constructor
  · intro fs v args
    have hrb : ∀ l, runBatch (Function.update fs p v) l = runBatch fs l := by
      intro l
      induction l with
      | nil => rfl
      | cons a t ih =>
        have hstep : stepFile (Function.update fs p v) a = stepFile fs a := by
          by_cases hsa : pathName a ∈ SKIP_FILES
          · simp [stepFile, hsa]
          · have hne : a ≠ p := fun hap => hsa (hap ▸ h)
            simp [stepFile, hsa, Function.update_noteq hne]
        simp [runBatch, hstep, ih]
    cases args with
    | nil => rfl
    | cons a l => simp [pyMain, hrb]
  · intro fs rest
    have hstep : stepFile fs p = .ok ([skipLine p], true) := by
      simp [stepFile, h]
    cases hr : runBatch fs rest with
    | ok lb => simp [runBatch, hstep, hr, Except.map]
    | error e => simp [runBatch, hstep, hr, Except.map]

/-- C9 witness: creating `docs/schema.toml` (with any parsed content) does
not change the run on a batch consisting of that path. -/
theorem skip_files_ignored_witness :
    pathName "docs/schema.toml" ∈ SKIP_FILES ∧
    pyMain ["docs/schema.toml"]
      (Function.update (fun _ => none) "docs/schema.toml" (some (FileData.parsed sampleRecord))) =
      pyMain ["docs/schema.toml"] (fun _ => none) :=
  ⟨by decide,
    (skip_files_ignored "docs/schema.toml" (by decide)).1 (fun _ => none)
      (some (FileData.parsed sampleRecord)) ["docs/schema.toml"]⟩
